import Mathlib

/-!
Verification of the American Century boardingpass ETL pipeline
(`etl_script.py`).  The pandas program is shallowly embedded: a
`Record` models one row of the spreadsheet with the columns the script
reads, a `Dataset` models a DataFrame (rows plus presence flags for the
three optional dimension columns), missing cells are `Option.none`
(pandas `NaN`), and the pandas primitives the script uses
(`str.contains`, `fillna`, `str.strip`, `value_counts`, `groupby` +
`unstack` + `sort_values`) are given explicit list-level definitions.
Date parsing (`pd.to_datetime`) is kept abstract as a `String → Option Int`
parameter because its calendar logic is irrelevant to every claim.
File output (`extract_data` / `load_data`) performs IO and is modelled as
a fallible parameter of the orchestrator.  Python exceptions are
modelled with `Except PyError`.
-/

/-- Case-insensitive substring containment, the semantics of
`Series.str.contains(pat, case=False)` for a pattern without regex
metacharacters: the lower-cased pattern occurs contiguously in the
lower-cased text. -/
def containsCI (hay pat : String) : Bool :=
  decide ((pat.data.map Char.toLower) <:+: (hay.data.map Char.toLower))

/-- Whitespace test used by `str.strip`. -/
def isWS (c : Char) : Bool := c.isWhitespace

/-- Remove leading and trailing whitespace characters. -/
def trimChars (l : List Char) : List Char :=
  ((l.dropWhile isWS).reverse.dropWhile isWS).reverse

/-- The semantics of Python `str.strip()`. -/
def trimStr (s : String) : String := String.mk (trimChars s.data)

/-- A cell of one of the three date columns: an unparsed raw value, a
parsed datetime (abstract timestamp), or missing (`NaN` / `NaT`). -/
inductive DateCell : Type
  | raw (s : String)
  | date (t : Int)
  | missing
deriving DecidableEq

/-- One row of the boardingpass table, with the columns `etl_script.py`
reads.  `extraNum` and `extraText` stand for the numeric and textual
passthrough columns touched only by the generic `fillna` loop. -/
structure Record where
  fundName : Option String
  planName : Option String
  requestStatus : Option String
  statusDetail : Option String
  advisorFirmName : Option String
  recordkeeperName : Option String
  nsccFirmName : Option String
  requestDate : DateCell
  estimatedFundingDate : DateCell
  reportAsOfDate : DateCell
  extraNum : Option Int
  extraText : Option String
deriving DecidableEq

/-- A DataFrame: ordered rows plus presence flags for the three
dimension columns, which the script treats as optional. -/
structure Dataset where
  rows : List Record
  hasAdvisor : Bool
  hasRecordkeeper : Bool
  hasNscc : Bool
deriving DecidableEq

/-- A Python exception value (the payload is irrelevant, only identity
matters for propagation results). -/
structure PyError where
  msg : String
deriving DecidableEq

/-- `df['Fund Name'].str.contains(pat, case=False, na=False)` applied to
one row: a missing fund name never matches. -/
def fundMatches (pat : String) (r : Record) : Bool :=
  match r.fundName with
  | some s => containsCI s pat
  | none => false

/-- The loose fallback filter
`str.contains('American|Century', case=False, na=False)`: the regex
alternation matches when either token occurs. -/
def fundLoose (r : Record) : Bool :=
  match r.fundName with
  | some s => containsCI s "American" || containsCI s "Century"
  | none => false

/-- `pd.to_datetime(col, errors='coerce')` on one cell: raw values are
parsed (unparsable ones become missing), already-parsed and missing
cells are unchanged. -/
def coerceDate (parse : String → Option Int) : DateCell → DateCell
  | DateCell.raw s =>
      match parse s with
      | some t => DateCell.date t
      | none => DateCell.missing
  | DateCell.date t => DateCell.date t
  | DateCell.missing => DateCell.missing

/-- `fillna('')` on an object-dtype cell. -/
def fillText : Option String → Option String
  | none => some ""
  | some s => some s

/-- `fillna(0)` on a numeric-dtype cell. -/
def fillNum : Option Int → Option Int
  | none => some 0
  | some n => some n

/-- `astype(str).str.strip()` on a cell (after `fillna` the cell is a
string, so `astype(str)` is the identity). -/
def stripCell (c : Option String) : Option String := c.map trimStr

/-- The per-row effect of `transform_data`'s cleaning block, in source
order: date coercion, then `fillna` over present columns (numeric to 0,
object to empty string), then `str.strip` over the present categorical
text columns.  Dimension columns are touched only when present. -/
def normalizeRow (parse : String → Option Int) (hasAdv hasRk hasNscc : Bool)
    (r : Record) : Record where
  fundName := fillText r.fundName
  planName := fillText r.planName
  requestStatus := stripCell (fillText r.requestStatus)
  statusDetail := stripCell (fillText r.statusDetail)
  advisorFirmName :=
    if hasAdv then stripCell (fillText r.advisorFirmName) else r.advisorFirmName
  recordkeeperName :=
    if hasRk then stripCell (fillText r.recordkeeperName) else r.recordkeeperName
  nsccFirmName :=
    if hasNscc then stripCell (fillText r.nsccFirmName) else r.nsccFirmName
  requestDate := coerceDate parse r.requestDate
  estimatedFundingDate := coerceDate parse r.estimatedFundingDate
  reportAsOfDate := coerceDate parse r.reportAsOfDate
  extraNum := fillNum r.extraNum
  extraText := fillText r.extraText

/-- `transform_data(df)` from `etl_script.py`: filter to rows whose
`Fund Name` contains "American Century" (case-insensitive); on zero
matches fall back to the loose `'American|Century'` filter; on zero
matches again return `pd.DataFrame()` (an empty frame with no columns);
otherwise clean the surviving rows.  The function returns normally in
every case; the `except` clause only re-raises, and no modelled
operation raises. -/
def transform_data (parse : String → Option Int) (d : Dataset) :
    Except PyError Dataset :=
  let dfStrict := d.rows.filter (fundMatches "American Century")
  let dfAc := if dfStrict.length = 0 then d.rows.filter fundLoose else dfStrict
  if dfAc.length = 0 then
    Except.ok { rows := [], hasAdvisor := false, hasRecordkeeper := false,
                hasNscc := false }
  else
    Except.ok
      { rows := dfAc.map (normalizeRow parse d.hasAdvisor d.hasRecordkeeper d.hasNscc)
        hasAdvisor := d.hasAdvisor
        hasRecordkeeper := d.hasRecordkeeper
        hasNscc := d.hasNscc }

/-- The distinct values of a list in order of first occurrence, the key
order produced by the hash-table pass of `value_counts` and `unique`. -/
def uniqueList {α : Type} [DecidableEq α] : List α → List α
  | [] => []
  | x :: xs => x :: (uniqueList xs).filter (fun y => decide (y ≠ x))

/-- Insert `x` in front of the first element `y` with `keep x y`.
Folding this over a list from the right is a stable sort for the
ranking `keep`. -/
def insertRanked {α : Type} (keep : α → α → Bool) (x : α) :
    List α → List α
  | [] => [x]
  | y :: ys => if keep x y then x :: y :: ys else y :: insertRanked keep x ys

/-- Stable insertion sort: an element is placed before the first
element it may precede, so elements equivalent under `keep` stay in
input order. -/
def sortRanked {α : Type} (keep : α → α → Bool) : List α → List α
  | [] => []
  | x :: xs => insertRanked keep x (sortRanked keep xs)

/-- Ranking used by `value_counts`: descending frequency. -/
def countGe {α : Type} [DecidableEq α] (vals : List α) (a b : α) : Bool :=
  decide (vals.count b ≤ vals.count a)

/-- Category order of `value_counts`: distinct values sorted by
descending frequency, ties kept in first-occurrence order. -/
def rankedValues {α : Type} [DecidableEq α] (vals : List α) : List α :=
  sortRanked (countGe vals) (uniqueList vals)

/-- `Series.value_counts().to_dict()`: frequency per distinct non-missing
value, in descending-frequency order. -/
def valueCounts {α : Type} [DecidableEq α] (vals : List α) : List (α × Nat) :=
  (rankedValues vals).map (fun v => (v, vals.count v))

/-- Round to one decimal place (`round(x, 1)` / `Series.round(1)`),
modelled as round-half-up on exact rationals. -/
def round1 (q : ℚ) : ℚ := ((⌊10 * q + 1 / 2⌋ : ℤ) : ℚ) / 10

/-- `(value_counts(normalize=True) * 100).round(1).to_dict()`: the share
of each distinct non-missing value among the non-missing values, as a
percentage rounded to one decimal. -/
def valuePercentages {α : Type} [DecidableEq α] (vals : List α) :
    List (α × ℚ) :=
  (rankedValues vals).map
    (fun v => (v, round1 ((vals.count v : ℚ) / (vals.length : ℚ) * 100)))

/-- The completion predicate of `calculate_metrics`:
`df['Status Detail'].str.contains('Ready to Trade', case=False, na=False)`
on one row; a missing status detail never matches. -/
def completedPred (r : Record) : Bool :=
  match r.statusDetail with
  | some s => containsCI s "Ready to Trade"
  | none => false

/-- Ascending string order, the default `groupby(sort=True)` key order. -/
def strLe (a b : String) : Bool := !decide (b < a)

/-- One row of `sorted_data` in the per-dimension breakdown: the entity
value, its count per request status (aligned with the status columns of
the `unstack`), and the `Total` column. -/
structure EntityRow where
  entity : String
  counts : List (String × Nat)
  total : Nat
deriving DecidableEq

/-- One value of the serialized `to_dict('records')` rows: a string cell,
an integer count cell, or a rational cell.  The code only ever emits
string and count cells; the rational constructor exists so that the
specified percentage fields are expressible. -/
inductive Cell : Type
  | s (v : String)
  | n (v : Nat)
  | q (v : ℚ)
deriving DecidableEq

/-- The breakdown stored under `metrics['by_dimension'][dim]`: the
status columns of the `unstack`, the entity rows sorted descending by
`Total`, and `top_entities` (the first ten index values). -/
structure DimBreakdown where
  statuses : List String
  data : List EntityRow
  top_entities : List String
deriving DecidableEq

/-- `sorted_data.reset_index().to_dict('records')` for one entity row:
the dimension value, the per-status counts, then `Total`. -/
def recordEntries (dimName : String) (row : EntityRow) : List (String × Cell) :=
  (dimName, Cell.s row.entity) ::
    (row.counts.map (fun p => (p.1, Cell.n p.2)) ++ [("Total", Cell.n row.total)])

/-- The group keys of `df.groupby([dim, 'Request Status'])`: one
(dimension value, status) pair per row in which both keys are present —
`groupby` drops rows in which either key is missing. -/
def dimPairs (f : Record → Option String) (rows : List Record) :
    List (String × String) :=
  rows.filterMap (fun r =>
    match f r, r.requestStatus with
    | some v, some s => some (v, s)
    | _, _ => none)

/-- The column labels of the `unstack`: the distinct statuses of the
grouped pairs, in the ascending order `groupby(sort=True)` produces. -/
def breakdownStatuses (pairs : List (String × String)) : List String :=
  sortRanked strLe (uniqueList (pairs.map Prod.snd))

/-- The index of the `unstack` before the `Total` sort: the distinct
dimension values of the grouped pairs, ascending. -/
def breakdownEntities (pairs : List (String × String)) : List String :=
  sortRanked strLe (uniqueList (pairs.map Prod.fst))

/-- The `Total` column: the row sum over the status columns. -/
def entityTotal (pairs : List (String × String)) (statuses : List String)
    (e : String) : Nat :=
  (statuses.map (fun s => pairs.count (e, s))).sum

/-- `df.groupby([dim, 'Request Status']).size().unstack(fill_value=0)`
followed by the `Total` column, `sort_values('Total', ascending=False)`
and serialization: counts per (entity, status) pair with absent pairs
zero-filled, a `Total` per entity row, entity rows sorted descending by
`Total`, and the first ten entities as `top_entities`. -/
def buildBreakdown (f : Record → Option String) (rows : List Record) :
    DimBreakdown :=
  let pairs := dimPairs f rows
  let statuses := breakdownStatuses pairs
  let sortedE := sortRanked
    (fun a b => decide (entityTotal pairs statuses b ≤
      entityTotal pairs statuses a))
    (breakdownEntities pairs)
  { statuses := statuses
    data := sortedE.map (fun e =>
      { entity := e
        counts := statuses.map (fun s => (s, pairs.count (e, s)))
        total := entityTotal pairs statuses e })
    top_entities := sortedE.take 10 }

/-- The metrics dictionary built by `calculate_metrics`.  The
`generated_at` wall-clock timestamp and the `data_as_of` maximum date
are omitted: no claim concerns them and real time is outside the
embedding. -/
structure Metrics where
  total_plans : Nat
  total_requests : Nat
  status_counts : List (String × Nat)
  status_percentages : List (String × ℚ)
  status_detail_counts : List (String × Nat)
  status_detail_percentages : List (String × ℚ)
  completed_count : Nat
  completion_rate : ℚ
  by_dimension : List (String × DimBreakdown)
deriving DecidableEq

/-- `calculate_metrics(df)` from `etl_script.py`. -/
def calculate_metrics (d : Dataset) : Metrics :=
  let valsS := d.rows.filterMap (fun r => r.requestStatus)
  let valsD := d.rows.filterMap (fun r => r.statusDetail)
  let completed := d.rows.filter completedPred
  { total_plans := (uniqueList (d.rows.map (fun r => r.planName))).length
    total_requests := d.rows.length
    status_counts := valueCounts valsS
    status_percentages := valuePercentages valsS
    status_detail_counts := valueCounts valsD
    status_detail_percentages := valuePercentages valsD
    completed_count := completed.length
    completion_rate :=
      if 0 < d.rows.length then
        round1 ((completed.length : ℚ) / (d.rows.length : ℚ) * 100)
      else 0
    by_dimension :=
      (if d.hasAdvisor then
        [("Advisor Firm Name", buildBreakdown (fun r => r.advisorFirmName) d.rows)]
      else []) ++
      (if d.hasRecordkeeper then
        [("Recordkeeper Name", buildBreakdown (fun r => r.recordkeeperName) d.rows)]
      else []) ++
      (if d.hasNscc then
        [("NSCC Firm Name", buildBreakdown (fun r => r.nsccFirmName) d.rows)]
      else []) }

/-- The four paths returned by `load_data`. -/
structure OutputPaths where
  processed_data_path : String
  metrics_path : String
  latest_data_path : String
  latest_metrics_path : String
deriving DecidableEq

/-- The control flow of `run_etl_pipeline`: sequence the four stages,
short-circuiting to `none` ("no data to process") when the transformed
frame has zero rows; a stage exception propagates unchanged because the
`except` clause only re-raises. -/
def runPipeline (extract : Except PyError Dataset)
    (transform : Dataset → Except PyError Dataset)
    (aggregate : Dataset → Except PyError Metrics)
    (load : Dataset → Metrics → Except PyError OutputPaths) :
    Except PyError (Option OutputPaths) := do
  let raw ← extract
  let t ← transform raw
  if t.rows.length = 0 then
    pure none
  else do
    let m ← aggregate t
    let p ← load t m
    pure (some p)

/-- `run_etl_pipeline(input_file, output_dir)`: the orchestrator applied
to the concrete transform and aggregation stages.  Reading the Excel
file and writing the outputs are IO, so they enter as the fallible
`extract` and `load` arguments. -/
def run_etl_pipeline (parse : String → Option Int)
    (extract : Except PyError Dataset)
    (load : Dataset → Metrics → Except PyError OutputPaths) :
    Except PyError (Option OutputPaths) :=
  runPipeline extract (transform_data parse)
    (fun t => Except.ok (calculate_metrics t)) load

/-! ### Properties of the text-normalization primitives -/

theorem dropWhile_dropWhile {α : Type} (p : α → Bool) (l : List α) :
    (l.dropWhile p).dropWhile p = l.dropWhile p := by
  induction l with
  | nil => rfl
  | cons x xs ih =>
    by_cases h : p x
    · simpa [List.dropWhile_cons, h] using ih
    · simp [List.dropWhile_cons, h]

theorem dropWhile_of_drop_eq_self {α : Type} {p : α → Bool} {m : List α}
    (hm : m.dropWhile p = m) {x : List α} (hx : x <+: m) :
    x.dropWhile p = x := by
  cases x with
  | nil => rfl
  | cons a rest =>
    obtain ⟨t, ht⟩ := hx
    have hhead : ¬ p a = true := by
      intro hpa
      have : m.dropWhile p = (rest ++ t).dropWhile p := by
        rw [← ht]; simp [List.dropWhile_cons, hpa]
      have hlen : m.length ≤ (rest ++ t).length := by
        rw [hm] at this
        calc m.length = ((rest ++ t).dropWhile p).length := by rw [this]
          _ ≤ (rest ++ t).length :=
              List.Sublist.length_le ((List.dropWhile_suffix p).sublist)
      rw [← ht] at hlen
      simp at hlen
    simp [List.dropWhile_cons, hhead]

theorem rdrop_of_drop_eq_self {α : Type} {p : α → Bool} {m : List α}
    (hm : m.dropWhile p = m) :
    ((m.reverse.dropWhile p).reverse).dropWhile p =
      (m.reverse.dropWhile p).reverse := by
  apply dropWhile_of_drop_eq_self hm
  have hsuf : m.reverse.dropWhile p <:+ m.reverse := List.dropWhile_suffix p
  have := List.reverse_prefix.mpr hsuf
  simpa using this

theorem trimChars_trimChars (l : List Char) :
    trimChars (trimChars l) = trimChars l := by
  unfold trimChars
  have h1 : (l.dropWhile isWS).dropWhile isWS = l.dropWhile isWS :=
    dropWhile_dropWhile isWS l
  have h2 := rdrop_of_drop_eq_self h1
  rw [h2]
  simp [dropWhile_dropWhile]

theorem trimStr_trimStr (s : String) : trimStr (trimStr s) = trimStr s := by
  unfold trimStr
  exact congrArg String.mk (trimChars_trimChars s.data)

theorem fillText_fillText (c : Option String) :
    fillText (fillText c) = fillText c := by
  cases c <;> rfl

theorem fillNum_fillNum (c : Option Int) : fillNum (fillNum c) = fillNum c := by
  cases c <;> rfl

theorem stripFill_idem (c : Option String) :
    stripCell (fillText (stripCell (fillText c))) = stripCell (fillText c) := by
  cases c <;> simp [stripCell, fillText, trimStr_trimStr]

theorem coerceDate_coerceDate (parse : String → Option Int) (c : DateCell) :
    coerceDate parse (coerceDate parse c) = coerceDate parse c := by
  cases c with
  | raw s =>
    simp only [coerceDate]
    cases parse s <;> rfl
  | date t => rfl
  | missing => rfl

theorem normalizeRow_normalizeRow (parse : String → Option Int)
    (a b c : Bool) (r : Record) :
    normalizeRow parse a b c (normalizeRow parse a b c r) =
      normalizeRow parse a b c r := by
  unfold normalizeRow
  cases a <;> cases b <;> cases c <;>
    simp [fillText_fillText, fillNum_fillNum, stripFill_idem,
      coerceDate_coerceDate]

/-! ### Properties of the stable sort and of first-occurrence uniques -/

theorem perm_insertRanked {α : Type} (keep : α → α → Bool) (x : α)
    (l : List α) : (insertRanked keep x l).Perm (x :: l) := by
  induction l with
  | nil => exact List.Perm.refl _
  | cons y ys ih =>
    by_cases h : keep x y
    · simp [insertRanked, h]
    · simp only [insertRanked, h, if_neg, Bool.not_eq_true]
      exact ((ih.cons y).trans (List.Perm.swap x y ys)).symm.symm

theorem perm_sortRanked {α : Type} (keep : α → α → Bool) (l : List α) :
    (sortRanked keep l).Perm l := by
  induction l with
  | nil => exact List.Perm.refl _
  | cons x xs ih =>
    exact (perm_insertRanked keep x (sortRanked keep xs)).trans (ih.cons x)

theorem mem_insertRanked {α : Type} {keep : α → α → Bool} {x v : α}
    {l : List α} : v ∈ insertRanked keep x l ↔ v = x ∨ v ∈ l := by
  constructor
  · intro h
    have := (perm_insertRanked keep x l).mem_iff.mp h
    simpa using this
  · intro h
    apply (perm_insertRanked keep x l).mem_iff.mpr
    simpa using h

theorem pairwise_insertRanked {α : Type} {keep : α → α → Bool}
    (htot : ∀ a b, keep a b || keep b a)
    (htrans : ∀ a b c, keep a b = true → keep b c = true → keep a c = true)
    {x : α} {l : List α}
    (hl : l.Pairwise (fun a b => keep a b = true)) :
    (insertRanked keep x l).Pairwise (fun a b => keep a b = true) := by
  induction l with
  | nil => simp [insertRanked]
  | cons y ys ih =>
    rcases hl with _ | ⟨hy, hys⟩
    by_cases h : keep x y
    · simp only [insertRanked, h, if_pos]
      refine List.Pairwise.cons ?_ (List.Pairwise.cons hy hys)
      intro z hz
      rcases List.mem_cons.mp hz with rfl | hz
      · exact h
      · exact htrans x y z h (hy z hz)
    · simp only [insertRanked, h, if_neg, Bool.not_eq_true]
      refine List.Pairwise.cons ?_ (ih hys)
      intro z hz
      rcases mem_insertRanked.mp hz with rfl | hz
      · rcases Bool.or_eq_true_iff.mp (htot z y) with h1 | h1
        · exact absurd h1 h
        · exact h1
      · exact hy z hz

theorem pairwise_sortRanked {α : Type} {keep : α → α → Bool}
    (htot : ∀ a b, keep a b || keep b a)
    (htrans : ∀ a b c, keep a b = true → keep b c = true → keep a c = true)
    (l : List α) :
    (sortRanked keep l).Pairwise (fun a b => keep a b = true) := by
  induction l with
  | nil => exact List.Pairwise.nil
  | cons x xs ih => exact pairwise_insertRanked htot htrans ih

theorem sublist_insertRanked {α : Type} (keep : α → α → Bool) (x : α)
    (l : List α) : l.Sublist (insertRanked keep x l) := by
  induction l with
  | nil => simp [insertRanked]
  | cons y ys ih =>
    by_cases h : keep x y
    · simp only [insertRanked, h, if_pos]
      exact List.Sublist.cons x (List.Sublist.refl _)
    · simp only [insertRanked, h, if_neg, Bool.not_eq_true]
      exact List.Sublist.cons₂ y ih

theorem pair_sublist_insertRanked {α : Type} {keep : α → α → Bool}
    {a b : α} (hab : keep a b = true) {l : List α} (hb : b ∈ l) :
    [a, b].Sublist (insertRanked keep a l) := by
  induction l with
  | nil => cases hb
  | cons y ys ih =>
    by_cases h : keep a y
    · simp only [insertRanked, h, if_pos]
      exact List.Sublist.cons₂ a (List.singleton_sublist.mpr hb)
    · simp only [insertRanked, h, if_neg, Bool.not_eq_true]
      rcases List.mem_cons.mp hb with rfl | hb
      · exact absurd hab h
      · exact List.Sublist.cons y (ih hb)

theorem pair_sublist_sortRanked {α : Type} {keep : α → α → Bool}
    {a b : α} (hab : keep a b = true) {l : List α}
    (h : [a, b].Sublist l) : [a, b].Sublist (sortRanked keep l) := by
  induction l with
  | nil => cases h
  | cons x xs ih =>
    rcases h with _ | _ | _
    case cons h =>
      exact (ih h).trans (sublist_insertRanked keep x (sortRanked keep xs))
    case cons₂ h =>
      have hb : b ∈ sortRanked keep xs :=
        (perm_sortRanked keep xs).mem_iff.mpr (List.singleton_sublist.mp h)
      exact pair_sublist_insertRanked hab hb

theorem mem_uniqueList {α : Type} [DecidableEq α] {v : α} {l : List α} :
    v ∈ uniqueList l ↔ v ∈ l := by
  induction l with
  | nil => simp [uniqueList]
  | cons x xs ih =>
    simp only [uniqueList, List.mem_cons, List.mem_filter, decide_eq_true_eq]
    constructor
    · rintro (rfl | ⟨h, _⟩)
      · exact Or.inl rfl
      · exact Or.inr (ih.mp h)
    · rintro (rfl | h)
      · exact Or.inl rfl
      · by_cases hvx : v = x
        · exact Or.inl hvx
        · exact Or.inr ⟨ih.mpr h, hvx⟩

theorem nodup_uniqueList {α : Type} [DecidableEq α] :
    ∀ l : List α, (uniqueList l).Nodup
  | [] => by simp [uniqueList]
  | x :: xs => by
    simp only [uniqueList]
    refine List.Pairwise.cons ?_ ((nodup_uniqueList xs).filter _)
    intro y hy
    have hne := (List.mem_filter.mp hy).2
    simp only [decide_eq_true_eq] at hne
    exact fun h => hne h.symm

theorem sum_map_filter_ne {α : Type} [DecidableEq α] (f : α → Nat) (x : α) :
    ∀ u : List α, u.Nodup →
      (u.map f).sum =
        (if x ∈ u then f x else 0) +
          ((u.filter (fun y => decide (y ≠ x))).map f).sum
  | [], _ => by simp
  | y :: ys, h => by
    rcases h with _ | ⟨hy, hys⟩
    by_cases hyx : y = x
    · subst hyx
      have hnot : y ∉ ys := fun hmem => (hy y hmem) rfl
      have hfil : ys.filter (fun z => decide (z ≠ y)) = ys := by
        apply List.filter_eq_self.mpr
        intro a ha
        simp only [decide_eq_true_eq]
        intro haz
        exact hnot (haz ▸ ha)
      rw [if_pos (List.mem_cons_self y ys), List.filter_cons,
        if_neg (by simp), hfil]
      simp
    · have hx : (x ∈ y :: ys) = (x ∈ ys) := by
        simp only [List.mem_cons]
        apply propext
        constructor
        · rintro (rfl | h)
          · exact absurd rfl hyx
          · exact h
        · exact Or.inr
      have ih := sum_map_filter_ne f x ys hys
      simp only [List.map_cons, List.sum_cons, hx, ih,
        List.filter_cons, decide_eq_true_eq]
      rw [if_pos hyx]
      simp only [List.map_cons, List.sum_cons]
      omega

theorem sum_count_uniqueList {α : Type} [DecidableEq α] :
    ∀ l : List α, ((uniqueList l).map (fun v => l.count v)).sum = l.length
  | [] => by simp [uniqueList]
  | x :: xs => by
    simp only [uniqueList, List.map_cons, List.sum_cons]
    have hcongr :
        ((uniqueList xs).filter (fun y => decide (y ≠ x))).map
            (fun v => (x :: xs).count v) =
          ((uniqueList xs).filter (fun y => decide (y ≠ x))).map
            (fun v => xs.count v) := by
      apply List.map_congr_left
      intro a ha
      have hne := (List.mem_filter.mp ha).2
      simp only [decide_eq_true_eq] at hne
      exact List.count_cons_of_ne hne xs
    rw [hcongr]
    have hsplit := sum_map_filter_ne (fun v => xs.count v) x
      (uniqueList xs) (nodup_uniqueList xs)
    have ih := sum_count_uniqueList xs
    rw [hsplit] at ih
    by_cases hx : x ∈ xs
    · rw [if_pos (mem_uniqueList.mpr hx)] at ih
      rw [List.count_cons_self]
      simp only [List.length_cons]
      beta_reduce at ih ⊢
      omega
    · rw [if_neg (fun h => hx (mem_uniqueList.mp h))] at ih
      rw [List.count_cons_self]
      have hzero : xs.count x = 0 := List.count_eq_zero.mpr hx
      simp only [List.length_cons]
      omega

theorem abs_round1_sub_le (q : ℚ) : |round1 q - q| ≤ 1 / 20 := by
  unfold round1
  have h1 : ((⌊10 * q + 1 / 2⌋ : ℤ) : ℚ) ≤ 10 * q + 1 / 2 := Int.floor_le _
  have h2 : 10 * q + 1 / 2 < ((⌊10 * q + 1 / 2⌋ : ℤ) : ℚ) + 1 :=
    Int.lt_floor_add_one _
  rw [abs_le]
  constructor <;> linarith

theorem abs_sum_sub_sum_le {α : Type} (f g : α → ℚ) (c : ℚ) :
    ∀ l : List α, (∀ a ∈ l, |f a - g a| ≤ c) →
      |(l.map f).sum - (l.map g).sum| ≤ l.length * c
  | [], _ => by simp
  | x :: xs, h => by
    have hx := h x (List.mem_cons_self x xs)
    have ih := abs_sum_sub_sum_le f g c xs
      (fun a ha => h a (List.mem_cons_of_mem x ha))
    simp only [List.map_cons, List.sum_cons, List.length_cons]
    have harr : f x + (xs.map f).sum - (g x + (xs.map g).sum) =
        (f x - g x) + ((xs.map f).sum - (xs.map g).sum) := by ring
    rw [harr]
    calc |(f x - g x) + ((xs.map f).sum - (xs.map g).sum)| ≤
          |f x - g x| + |(xs.map f).sum - (xs.map g).sum| := abs_add _ _
      _ ≤ c + xs.length * c := add_le_add hx ih
      _ = (xs.length + 1) * c := by ring
      _ = ((xs.length + 1 : Nat) : ℚ) * c := by push_cast; ring

/-! ### Behaviour of the entity filter and of transform -/

theorem fundName_normalizeRow (parse : String → Option Int) (a b c : Bool)
    (r : Record) :
    (normalizeRow parse a b c r).fundName = fillText r.fundName := rfl

theorem fundMatches_normalizeRow (pat : String)
    (hpat : containsCI "" pat = false) (parse : String → Option Int)
    (a b c : Bool) (r : Record) :
    fundMatches pat (normalizeRow parse a b c r) = fundMatches pat r := by
  unfold fundMatches
  rw [fundName_normalizeRow]
  cases hr : r.fundName with
  | none => simpa [fillText] using hpat
  | some s => rfl

theorem fundLoose_normalizeRow (parse : String → Option Int) (a b c : Bool)
    (r : Record) :
    fundLoose (normalizeRow parse a b c r) = fundLoose r := by
  unfold fundLoose
  rw [fundName_normalizeRow]
  cases hr : r.fundName with
  | none =>
    simp only [fillText]
    decide
  | some s => rfl

theorem transform_data_strict (parse : String → Option Int) (d : Dataset)
    (h : d.rows.filter (fundMatches "American Century") ≠ []) :
    transform_data parse d = Except.ok
      { rows := (d.rows.filter (fundMatches "American Century")).map
          (normalizeRow parse d.hasAdvisor d.hasRecordkeeper d.hasNscc)
        hasAdvisor := d.hasAdvisor
        hasRecordkeeper := d.hasRecordkeeper
        hasNscc := d.hasNscc } := by
  unfold transform_data
  have hlen : ¬ (d.rows.filter (fundMatches "American Century")).length = 0 := by
    simpa [List.length_eq_zero] using h
  simp [hlen]

theorem transform_data_fallback (parse : String → Option Int) (d : Dataset)
    (h0 : d.rows.filter (fundMatches "American Century") = [])
    (h1 : d.rows.filter fundLoose ≠ []) :
    transform_data parse d = Except.ok
      { rows := (d.rows.filter fundLoose).map
          (normalizeRow parse d.hasAdvisor d.hasRecordkeeper d.hasNscc)
        hasAdvisor := d.hasAdvisor
        hasRecordkeeper := d.hasRecordkeeper
        hasNscc := d.hasNscc } := by
  unfold transform_data
  have hlen : ¬ (d.rows.filter fundLoose).length = 0 := by
    simpa [List.length_eq_zero] using h1
  simp [h0, hlen]

theorem transform_data_both_empty (parse : String → Option Int) (d : Dataset)
    (h0 : d.rows.filter (fundMatches "American Century") = [])
    (h1 : d.rows.filter fundLoose = []) :
    transform_data parse d = Except.ok
      { rows := [], hasAdvisor := false, hasRecordkeeper := false,
        hasNscc := false } := by
  unfold transform_data
  simp [h0, h1]

theorem filter_filter_self {α : Type} (p : α → Bool) (l : List α) :
    (l.filter p).filter p = l.filter p :=
  List.filter_eq_self.mpr (fun a ha => (List.mem_filter.mp ha).2)

theorem filter_map_normalize (p : Record → Bool) (parse : String → Option Int)
    (a b c : Bool)
    (hp : ∀ r, p (normalizeRow parse a b c r) = p r) (l : List Record) :
    (l.map (normalizeRow parse a b c)).filter p =
      (l.filter p).map (normalizeRow parse a b c) := by
  rw [List.filter_map]
  congr 1
  apply List.filter_congr
  intro r _
  simpa using hp r

theorem map_normalize_twice (parse : String → Option Int) (a b c : Bool)
    (l : List Record) :
    (l.map (normalizeRow parse a b c)).map (normalizeRow parse a b c) =
      l.map (normalizeRow parse a b c) := by
  rw [List.map_map]
  apply List.map_congr_left
  intro r _
  simpa using normalizeRow_normalizeRow parse a b c r

/-! ### Concrete fixtures used by witnesses and counterexamples -/

/-- A row with every cell missing. -/
def baseRow : Record where
  fundName := none
  planName := none
  requestStatus := none
  statusDetail := none
  advisorFirmName := none
  recordkeeperName := none
  nsccFirmName := none
  requestDate := DateCell.missing
  estimatedFundingDate := DateCell.missing
  reportAsOfDate := DateCell.missing
  extraNum := none
  extraText := none

/-- A date parser that parses nothing (its choice is irrelevant to every
claim). -/
def parse0 : String → Option Int := fun _ => none

/-- A dataset whose single fund name matches neither filter. -/
def dsNoMatch : Dataset where
  rows := [{ baseRow with fundName := some "Vanguard 500" }]
  hasAdvisor := true
  hasRecordkeeper := true
  hasNscc := true

/-- A dataset with two strict matches and one non-match. -/
def dsStrict : Dataset where
  rows :=
    [{ baseRow with
        fundName := some "American Century Growth"
        planName := some "P1"
        requestStatus := some "Complete"
        statusDetail := some "Ready to Trade" },
     { baseRow with
        fundName := some "Vanguard 500"
        planName := some "P2"
        requestStatus := some "Pending"
        statusDetail := some "Account Setup" },
     { baseRow with
        fundName := some "AMERICAN CENTURY Value"
        planName := some "P1"
        requestStatus := some "Pending"
        statusDetail := some "Awaiting Signature" }]
  hasAdvisor := true
  hasRecordkeeper := true
  hasNscc := true

/-- A dataset with no strict match but two loose matches. -/
def dsLoose : Dataset where
  rows :=
    [{ baseRow with
        fundName := some "American Funds Growth"
        planName := some "P1"
        requestStatus := some "Pending" },
     { baseRow with
        fundName := some "Fidelity 500"
        planName := some "P2"
        requestStatus := some "Pending" },
     { baseRow with
        fundName := some "21st Century Fund"
        planName := some "P3"
        requestStatus := some "Complete" }]
  hasAdvisor := false
  hasRecordkeeper := false
  hasNscc := false

/-! ### Claims C1, C2, C7, C10 about the Transformer -/

/-- Claim C1, counterexample: on a dataset whose single fund name
contains neither token, `transform_data` does not raise; it returns
normally (`Except.ok`) with the empty frame, so the claim that it
"raises EmptyResultError (it does not return a normal result)" is false
of the code — no such exception class even exists in `etl_script.py`. -/
theorem transform_data_returns_ok_on_no_match :
    transform_data parse0 dsNoMatch = Except.ok
      { rows := [], hasAdvisor := false, hasRecordkeeper := false,
        hasNscc := false } := by
  rfl

/-- Claim C1, amended: on any dataset in which no row's fund name
matches the strict "American Century" filter and none matches the loose
"American or Century" filter, `transform_data` returns normally with an
empty Dataset (the zero-row, zero-column frame `pd.DataFrame()`), the
in-band signal the orchestrator treats as "nothing to process". -/
theorem transform_data_no_match_returns_empty (parse : String → Option Int)
    (d : Dataset)
    (hstrict : ∀ r ∈ d.rows, fundMatches "American Century" r = false)
    (hloose : ∀ r ∈ d.rows, fundLoose r = false) :
    transform_data parse d = Except.ok
      { rows := [], hasAdvisor := false, hasRecordkeeper := false,
        hasNscc := false } := by
  apply transform_data_both_empty
  · exact List.filter_eq_nil_iff.mpr
      (fun a ha => by simp [hstrict a ha])
  · exact List.filter_eq_nil_iff.mpr
      (fun a ha => by simp [hloose a ha])

/-- Witness for the amended C1 at a concrete dataset. -/
theorem transform_data_no_match_witness :
    transform_data parse0 dsNoMatch = Except.ok
      { rows := [], hasAdvisor := false, hasRecordkeeper := false,
        hasNscc := false } :=
  transform_data_no_match_returns_empty parse0 dsNoMatch
    (by decide) (by decide)

/-- Claim C2: on any dataset in which no row matches the strict
"American Century" filter but some row matches the loose OR filter
("American" or "Century", case-insensitive), `transform_data` returns
normally, and its rows are exactly the loose matches of the input, in
order and multiplicity, each passed through the cleaning steps; the
result is non-empty, so the empty-result path is not taken. -/
theorem transform_data_fallback_law (parse : String → Option Int)
    (d : Dataset)
    (hstrict : ∀ r ∈ d.rows, fundMatches "American Century" r = false)
    (hloose : ∃ r ∈ d.rows, fundLoose r = true) :
    transform_data parse d = Except.ok
      { rows := (d.rows.filter fundLoose).map
          (normalizeRow parse d.hasAdvisor d.hasRecordkeeper d.hasNscc)
        hasAdvisor := d.hasAdvisor
        hasRecordkeeper := d.hasRecordkeeper
        hasNscc := d.hasNscc } ∧
    (d.rows.filter fundLoose).map
        (normalizeRow parse d.hasAdvisor d.hasRecordkeeper d.hasNscc) ≠ [] := by
  obtain ⟨r, hr, hrl⟩ := hloose
  have hne : d.rows.filter fundLoose ≠ [] := by
    intro hnil
    have := List.filter_eq_nil_iff.mp hnil r hr
    simp [hrl] at this
  constructor
  · apply transform_data_fallback parse d ?_ hne
    exact List.filter_eq_nil_iff.mpr (fun a ha => by simp [hstrict a ha])
  · intro hnil
    exact hne (List.map_eq_nil_iff.mp hnil)

/-- Witness for C2 at a concrete dataset with two loose matches. -/
theorem transform_data_fallback_witness :
    transform_data parse0 dsLoose = Except.ok
      { rows := (dsLoose.rows.filter fundLoose).map
          (normalizeRow parse0 dsLoose.hasAdvisor dsLoose.hasRecordkeeper
            dsLoose.hasNscc)
        hasAdvisor := dsLoose.hasAdvisor
        hasRecordkeeper := dsLoose.hasRecordkeeper
        hasNscc := dsLoose.hasNscc } ∧
    (dsLoose.rows.filter fundLoose).map
        (normalizeRow parse0 dsLoose.hasAdvisor dsLoose.hasRecordkeeper
          dsLoose.hasNscc) ≠ [] :=
  transform_data_fallback_law parse0 dsLoose (by decide)
    ⟨dsLoose.rows.head (by decide), by decide, by decide⟩

theorem containsCI_american_of_strict (s : String)
    (h : containsCI s "American Century" = true) :
    containsCI s "American" = true := by
  unfold containsCI at h ⊢
  rw [decide_eq_true_eq] at h ⊢
  have hsub : ("American".data.map Char.toLower) <:+:
      ("American Century".data.map Char.toLower) := by decide
  exact hsub.trans h

/-- Claim C10: every strict match ("American Century", case-insensitive)
also satisfies the loose OR filter, and whenever a dataset has at least
one strict match, `transform_data` succeeds with a non-empty result that
contains the (cleaned) image of every strict-matching row — the
fallback can only widen the selection, never drop a strict match. -/
theorem transform_data_superset_of_strict (parse : String → Option Int)
    (d : Dataset) :
    (∀ r : Record, fundMatches "American Century" r = true →
      fundLoose r = true) ∧
    (∀ r ∈ d.rows, fundMatches "American Century" r = true →
      ∃ t : Dataset, transform_data parse d = Except.ok t ∧ t.rows ≠ [] ∧
        normalizeRow parse d.hasAdvisor d.hasRecordkeeper d.hasNscc r ∈
          t.rows) := by
  have himp : ∀ r : Record, fundMatches "American Century" r = true →
      fundLoose r = true := by
    intro r h
    unfold fundMatches at h
    unfold fundLoose
    cases hr : r.fundName with
    | none => rw [hr] at h; cases h
    | some s =>
      rw [hr] at h
      have h2 : containsCI s "American Century" = true := h
      show (containsCI s "American" || containsCI s "Century") = true
      rw [containsCI_american_of_strict s h2]
      rfl
  refine ⟨himp, ?_⟩
  intro r hr hmatch
  have hmem : r ∈ d.rows.filter (fundMatches "American Century") :=
    List.mem_filter.mpr ⟨hr, hmatch⟩
  have hne : d.rows.filter (fundMatches "American Century") ≠ [] := by
    intro hnil
    rw [hnil] at hmem
    cases hmem
  refine ⟨_, transform_data_strict parse d hne, ?_, ?_⟩
  · intro hnil
    simp only [List.map_eq_nil_iff] at hnil
    exact hne hnil
  · exact List.mem_map_of_mem _ hmem

/-- Witness for C10 at a concrete dataset with a strict match. -/
theorem transform_data_superset_witness :
    fundLoose
        { baseRow with
          fundName := some "American Century Growth"
          planName := some "P1"
          requestStatus := some "Complete"
          statusDetail := some "Ready to Trade" } = true ∧
    ∃ t : Dataset, transform_data parse0 dsStrict = Except.ok t ∧
      t.rows ≠ [] ∧
      normalizeRow parse0 dsStrict.hasAdvisor dsStrict.hasRecordkeeper
          dsStrict.hasNscc
          { baseRow with
            fundName := some "American Century Growth"
            planName := some "P1"
            requestStatus := some "Complete"
            statusDetail := some "Ready to Trade" } ∈ t.rows := by
  constructor
  · exact (transform_data_superset_of_strict parse0 dsStrict).1 _ (by decide)
  · exact (transform_data_superset_of_strict parse0 dsStrict).2 _
      (by decide) (by decide)

/-- Claim C7: `transform_data` is idempotent on its successful outputs:
if it produced a non-empty dataset `t`, running it again on `t` returns
`t` unchanged — the filter re-selects every row and the cleaning steps
are the identity on already-cleaned rows. -/
theorem transform_data_idempotent (parse : String → Option Int)
    (d t : Dataset) (h : transform_data parse d = Except.ok t)
    (hne : t.rows ≠ []) : transform_data parse t = Except.ok t := by
  by_cases hs : d.rows.filter (fundMatches "American Century") = []
  · by_cases hl : d.rows.filter fundLoose = []
    · rw [transform_data_both_empty parse d hs hl] at h
      injection h with h
      rw [← h] at hne
      exact absurd rfl hne
    · rw [transform_data_fallback parse d hs hl] at h
      injection h with h
      subst h
      have hstrictT :
          ((d.rows.filter fundLoose).map
              (normalizeRow parse d.hasAdvisor d.hasRecordkeeper
                d.hasNscc)).filter (fundMatches "American Century") = [] := by
        rw [filter_map_normalize _ parse _ _ _
          (fundMatches_normalizeRow "American Century" (by decide) parse _ _ _)]
        have : (d.rows.filter fundLoose).filter
            (fundMatches "American Century") = [] := by
          apply List.filter_eq_nil_iff.mpr
          intro a ha
          have ha2 : a ∈ d.rows := (List.mem_filter.mp ha).1
          have := List.filter_eq_nil_iff.mp hs a ha2
          exact this
        rw [this]
        rfl
      have hlooseT :
          ((d.rows.filter fundLoose).map
              (normalizeRow parse d.hasAdvisor d.hasRecordkeeper
                d.hasNscc)).filter fundLoose =
            (d.rows.filter fundLoose).map
              (normalizeRow parse d.hasAdvisor d.hasRecordkeeper
                d.hasNscc) := by
        rw [filter_map_normalize _ parse _ _ _
          (fundLoose_normalizeRow parse _ _ _)]
        rw [filter_filter_self]
      have := transform_data_fallback parse
        { rows := (d.rows.filter fundLoose).map
            (normalizeRow parse d.hasAdvisor d.hasRecordkeeper d.hasNscc)
          hasAdvisor := d.hasAdvisor
          hasRecordkeeper := d.hasRecordkeeper
          hasNscc := d.hasNscc } hstrictT (by rw [hlooseT]; exact hne)
      rw [this, hlooseT, map_normalize_twice]
  · rw [transform_data_strict parse d hs] at h
    injection h with h
    subst h
    have hstrictT :
        ((d.rows.filter (fundMatches "American Century")).map
            (normalizeRow parse d.hasAdvisor d.hasRecordkeeper
              d.hasNscc)).filter (fundMatches "American Century") =
          (d.rows.filter (fundMatches "American Century")).map
            (normalizeRow parse d.hasAdvisor d.hasRecordkeeper d.hasNscc) := by
      rw [filter_map_normalize _ parse _ _ _
        (fundMatches_normalizeRow "American Century" (by decide) parse _ _ _)]
      rw [filter_filter_self]
    have := transform_data_strict parse
      { rows := (d.rows.filter (fundMatches "American Century")).map
          (normalizeRow parse d.hasAdvisor d.hasRecordkeeper d.hasNscc)
        hasAdvisor := d.hasAdvisor
        hasRecordkeeper := d.hasRecordkeeper
        hasNscc := d.hasNscc } (by rw [hstrictT]; exact hne)
    rw [this, hstrictT, map_normalize_twice]

/-- Witness for C7: the transformed concrete strict dataset is a fixed
point of transform. -/
theorem transform_data_idempotent_witness :
    transform_data parse0
      { rows := (dsStrict.rows.filter (fundMatches "American Century")).map
          (normalizeRow parse0 true true true)
        hasAdvisor := true
        hasRecordkeeper := true
        hasNscc := true } = Except.ok
      { rows := (dsStrict.rows.filter (fundMatches "American Century")).map
          (normalizeRow parse0 true true true)
        hasAdvisor := true
        hasRecordkeeper := true
        hasNscc := true } :=
  transform_data_idempotent parse0 dsStrict _ (by rfl) (by decide)

/-! ### Claims C3 and C4 about the scalar metrics -/

theorem length_uniqueList_eq_card {α : Type} [DecidableEq α] (l : List α) :
    (uniqueList l).length = l.toFinset.card := by
  have h1 : (uniqueList l).toFinset = l.toFinset := by
    ext a
    simp [List.mem_toFinset, mem_uniqueList]
  rw [← h1, List.toFinset_card_of_nodup (nodup_uniqueList l)]

/-- Claim C3: for every dataset, `total_requests` is the number of
records and `total_plans` is the cardinality of the set of distinct
plan-name values (a missing plan name counting as one value, exactly as
`unique()` does), not the record count. -/
theorem calculate_metrics_totals (d : Dataset) :
    (calculate_metrics d).total_requests = d.rows.length ∧
    (calculate_metrics d).total_plans =
      (d.rows.map (fun r => r.planName)).toFinset.card := by
  refine ⟨rfl, ?_⟩
  show (uniqueList (d.rows.map (fun r => r.planName))).length = _
  exact length_uniqueList_eq_card _

/-- Unfolding of the stored completion rate. -/
theorem completion_rate_def (d : Dataset) :
    (calculate_metrics d).completion_rate =
      if 0 < d.rows.length then
        round1 (((d.rows.filter completedPred).length : ℚ) /
          (d.rows.length : ℚ) * 100)
      else 0 := rfl

/-- Evaluation rule for `round1` given floor bounds. -/
theorem round1_eq {q : ℚ} {n : ℤ} (h1 : (n : ℚ) ≤ 10 * q + 1 / 2)
    (h2 : 10 * q + 1 / 2 < n + 1) : round1 q = (n : ℚ) / 10 := by
  unfold round1
  rw [show ⌊10 * q + 1 / 2⌋ = n from Int.floor_eq_iff.mpr ⟨h1, h2⟩]

/-- A dataset with three records, one of which is completed. -/
def dsThird : Dataset where
  rows := [{ baseRow with statusDetail := some "Ready to Trade" },
           { baseRow with statusDetail := some "In Progress" },
           { baseRow with statusDetail := some "On Hold" }]
  hasAdvisor := false
  hasRecordkeeper := false
  hasNscc := false

/-- Claim C4, counterexample: with three records and one completed, the
stored completion rate is the one-decimal rounding 33.3, which differs
from the exact ratio 100/3 the claim asserts. -/
theorem completion_rate_rounded_counterexample :
    (calculate_metrics dsThird).completion_rate ≠
      ((calculate_metrics dsThird).completed_count : ℚ) /
        ((calculate_metrics dsThird).total_requests : ℚ) * 100 := by
  have h3 : (calculate_metrics dsThird).completed_count = 1 := rfl
  have h4 : (calculate_metrics dsThird).total_requests = 3 := rfl
  have h5 : (calculate_metrics dsThird).completion_rate =
      round1 ((1 : ℚ) / 3 * 100) := by
    rw [completion_rate_def,
      if_pos (by decide : 0 < dsThird.rows.length),
      show (dsThird.rows.filter completedPred).length = 1 from rfl,
      show dsThird.rows.length = 3 from rfl]
    norm_num
  have h6 : round1 ((1 : ℚ) / 3 * 100) = ((333 : ℤ) : ℚ) / 10 :=
    round1_eq (by norm_num) (by norm_num)
  rw [h3, h4, h5, h6]
  norm_num

/-- Claim C4 (amended): a record is counted as completed exactly when
its StatusDetail contains "Ready to Trade" case-insensitively, with a
missing StatusDetail never matching; the stored completion rate is the
ratio completed / total × 100 rounded to one decimal when the dataset
is non-empty, and exactly 0 on an empty dataset (the division is
guarded, so aggregation never faults). -/
theorem completion_metrics_spec (d : Dataset) :
    (calculate_metrics d).completed_count =
      (d.rows.filter (fun r =>
        match r.statusDetail with
        | some s => containsCI s "Ready to Trade"
        | none => false)).length ∧
    (d.rows ≠ [] → (calculate_metrics d).completion_rate =
      round1 (((calculate_metrics d).completed_count : ℚ) /
        (d.rows.length : ℚ) * 100)) ∧
    (d.rows = [] → (calculate_metrics d).completion_rate = 0) := by
  refine ⟨rfl, ?_, ?_⟩
  · intro h
    rw [completion_rate_def, if_pos (List.length_pos.mpr h)]
    rfl
  · intro h
    rw [completion_rate_def, h]
    rfl

/-- The empty dataset. -/
def dsEmpty : Dataset where
  rows := []
  hasAdvisor := false
  hasRecordkeeper := false
  hasNscc := false

/-- Witness for the amended C4: the completed count, the rounded rate
on a concrete non-empty dataset, and the guarded zero on the empty
dataset. -/
theorem completion_metrics_witness :
    (calculate_metrics dsThird).completed_count =
      (dsThird.rows.filter (fun r =>
        match r.statusDetail with
        | some s => containsCI s "Ready to Trade"
        | none => false)).length ∧
    (calculate_metrics dsThird).completion_rate =
      round1 (((calculate_metrics dsThird).completed_count : ℚ) /
        (dsThird.rows.length : ℚ) * 100) ∧
    (calculate_metrics dsEmpty).completion_rate = 0 :=
  ⟨(completion_metrics_spec dsThird).1,
   (completion_metrics_spec dsThird).2.1 (by decide),
   (completion_metrics_spec dsEmpty).2.2 rfl⟩

/-! ### Claims C5 and C6 about the distributions -/

theorem keys_valueCounts {α : Type} [DecidableEq α] (vals : List α) :
    (valueCounts vals).map Prod.fst = rankedValues vals := by
  unfold valueCounts
  rw [List.map_map]
  have hid : (Prod.fst ∘ fun v : α => (v, vals.count v)) = id := rfl
  rw [hid, List.map_id]

theorem countGe_total {α : Type} [DecidableEq α] (vals : List α) (a b : α) :
    countGe vals a b || countGe vals b a := by
  unfold countGe
  rcases le_total (vals.count b) (vals.count a) with h | h
  · simp [h]
  · simp [h]

theorem countGe_trans {α : Type} [DecidableEq α] (vals : List α) (a b c : α)
    (h1 : countGe vals a b = true) (h2 : countGe vals b c = true) :
    countGe vals a c = true := by
  unfold countGe at h1 h2 ⊢
  simp only [decide_eq_true_eq] at h1 h2 ⊢
  exact le_trans h2 h1

theorem valueCounts_keys_props {α : Type} [DecidableEq α] (vals : List α) :
    ((valueCounts vals).map Prod.fst).Pairwise
      (fun a b => vals.count b ≤ vals.count a) ∧
    (∀ a b : α, vals.count a = vals.count b →
      [a, b].Sublist (uniqueList vals) →
      [a, b].Sublist ((valueCounts vals).map Prod.fst)) ∧
    ((valueCounts vals).map Prod.fst).Perm (uniqueList vals) := by
  rw [keys_valueCounts]
  unfold rankedValues
  refine ⟨?_, ?_, perm_sortRanked _ _⟩
  · have hp := pairwise_sortRanked (countGe_total vals) (countGe_trans vals)
      (uniqueList vals)
    exact hp.imp (fun h => by
      unfold countGe at h
      simpa using h)
  · intro a b hcount hsub
    apply pair_sublist_sortRanked ?_ hsub
    unfold countGe
    simp [hcount]

/-- Claim C6: in both distribution mappings the category keys are
ordered by descending frequency; categories of equal frequency appear
in first-encountered order (`uniqueList` is the first-occurrence order
of the column's present values); and the keys are exactly the distinct
present values. -/
theorem status_distribution_order (d : Dataset) :
    (((calculate_metrics d).status_counts.map Prod.fst).Pairwise
      (fun a b => (d.rows.filterMap (fun r => r.requestStatus)).count b ≤
        (d.rows.filterMap (fun r => r.requestStatus)).count a) ∧
     (∀ a b : String,
      (d.rows.filterMap (fun r => r.requestStatus)).count a =
        (d.rows.filterMap (fun r => r.requestStatus)).count b →
      [a, b].Sublist (uniqueList (d.rows.filterMap (fun r => r.requestStatus))) →
      [a, b].Sublist ((calculate_metrics d).status_counts.map Prod.fst)) ∧
     ((calculate_metrics d).status_counts.map Prod.fst).Perm
      (uniqueList (d.rows.filterMap (fun r => r.requestStatus)))) ∧
    (((calculate_metrics d).status_detail_counts.map Prod.fst).Pairwise
      (fun a b => (d.rows.filterMap (fun r => r.statusDetail)).count b ≤
        (d.rows.filterMap (fun r => r.statusDetail)).count a) ∧
     (∀ a b : String,
      (d.rows.filterMap (fun r => r.statusDetail)).count a =
        (d.rows.filterMap (fun r => r.statusDetail)).count b →
      [a, b].Sublist (uniqueList (d.rows.filterMap (fun r => r.statusDetail))) →
      [a, b].Sublist ((calculate_metrics d).status_detail_counts.map Prod.fst)) ∧
     ((calculate_metrics d).status_detail_counts.map Prod.fst).Perm
      (uniqueList (d.rows.filterMap (fun r => r.statusDetail)))) :=
  ⟨valueCounts_keys_props (d.rows.filterMap (fun r => r.requestStatus)),
   valueCounts_keys_props (d.rows.filterMap (fun r => r.statusDetail))⟩

/-- Witness for C6: on the concrete dataset the tie-breaking clause
yields a concrete key order: the two equal-frequency status details
keep their first-encounter order in the serialized keys. -/
theorem status_distribution_order_witness :
    ["Ready to Trade", "Awaiting Signature"].Sublist
      ((calculate_metrics dsStrict).status_detail_counts.map Prod.fst) :=
  (status_distribution_order dsStrict).2.2.1 "Ready to Trade"
    "Awaiting Signature" (by decide) (by decide)

theorem sum_valuePercentages_near_100 {α : Type} [DecidableEq α]
    (vals : List α) (h : vals ≠ []) :
    |((valuePercentages vals).map Prod.snd).sum - 100| ≤
      ((valuePercentages vals).length : ℚ) / 10 := by
  unfold valuePercentages
  rw [List.map_map]
  have hcomp : (Prod.snd ∘ fun v : α =>
      (v, round1 ((vals.count v : ℚ) / (vals.length : ℚ) * 100))) =
      fun v : α => round1 ((vals.count v : ℚ) / (vals.length : ℚ) * 100) := rfl
  rw [hcomp]
  have hsum_counts :
      ((rankedValues vals).map (fun v => vals.count v)).sum = vals.length := by
    have hperm : (rankedValues vals).Perm (uniqueList vals) :=
      perm_sortRanked _ _
    rw [(hperm.map (fun v => vals.count v)).sum_eq, sum_count_uniqueList]
  have hn : (vals.length : ℚ) ≠ 0 :=
    Nat.cast_ne_zero.mpr (fun h0 => h (List.length_eq_zero.mp h0))
  have hexact : ((rankedValues vals).map
      (fun v => (vals.count v : ℚ) / (vals.length : ℚ) * 100)).sum = 100 := by
    have h1 : (rankedValues vals).map
        (fun v => (vals.count v : ℚ) / (vals.length : ℚ) * 100) =
        (rankedValues vals).map
          (fun v => (vals.count v : ℚ) * (100 / (vals.length : ℚ))) := by
      apply List.map_congr_left
      intro a _
      field_simp
    have h2 : (rankedValues vals).map
        (fun v => ((vals.count v : ℕ) : ℚ)) =
        ((rankedValues vals).map (fun v => vals.count v)).map
          (fun n : ℕ => (n : ℚ)) := by
      rw [List.map_map]
      rfl
    rw [h1, List.sum_map_mul_right, h2, ← Nat.cast_list_sum, hsum_counts]
    field_simp
  have hbound := abs_sum_sub_sum_le
    (fun v : α => round1 ((vals.count v : ℚ) / (vals.length : ℚ) * 100))
    (fun v : α => (vals.count v : ℚ) / (vals.length : ℚ) * 100) (1 / 20)
    (rankedValues vals) (fun a _ => abs_round1_sub_le _)
  rw [hexact] at hbound
  have hlen : ((rankedValues vals).map (fun v : α =>
      (v, round1 ((vals.count v : ℚ) / (vals.length : ℚ) * 100)))).length =
      (rankedValues vals).length := List.length_map _ _
  rw [hlen]
  have hub : ((rankedValues vals).length : ℚ) * (1 / 20) ≤
      ((rankedValues vals).length : ℚ) / 10 := by
    have hpos : (0 : ℚ) ≤ ((rankedValues vals).length : ℚ) :=
      Nat.cast_nonneg _
    linarith
  exact le_trans hbound hub

/-- Claim C5 (amended): for every dataset in which the relevant column
has at least one present (non-missing) value, the percentage values of
that distribution (share of present values, rounded to one decimal) sum
to 100 within 0.1 times the number of categories.  (On a column whose
values are all missing the distribution is empty and its sum is 0.) -/
theorem percentage_sums_spec (d : Dataset) :
    (d.rows.filterMap (fun r => r.requestStatus) ≠ [] →
      |(((calculate_metrics d).status_percentages).map Prod.snd).sum - 100| ≤
        (((calculate_metrics d).status_percentages).length : ℚ) / 10) ∧
    (d.rows.filterMap (fun r => r.statusDetail) ≠ [] →
      |(((calculate_metrics d).status_detail_percentages).map
          Prod.snd).sum - 100| ≤
        (((calculate_metrics d).status_detail_percentages).length : ℚ) / 10) := by
  constructor
  · intro h
    exact sum_valuePercentages_near_100 _ h
  · intro h
    exact sum_valuePercentages_near_100 _ h

/-- Witness for the amended C5 on a concrete dataset with three records. -/
theorem percentage_sums_witness :
    |(((calculate_metrics dsStrict).status_percentages).map
        Prod.snd).sum - 100| ≤
      (((calculate_metrics dsStrict).status_percentages).length : ℚ) / 10 ∧
    |(((calculate_metrics dsStrict).status_detail_percentages).map
        Prod.snd).sum - 100| ≤
      (((calculate_metrics dsStrict).status_detail_percentages).length : ℚ) /
        10 :=
  ⟨(percentage_sums_spec dsStrict).1 (by decide),
   (percentage_sums_spec dsStrict).2 (by decide)⟩

/-- A non-empty dataset whose StatusDetail column is entirely missing. -/
def dsDetailNone : Dataset where
  rows := [{ baseRow with requestStatus := some "A" }]
  hasAdvisor := false
  hasRecordkeeper := false
  hasNscc := false

/-- Claim C5, counterexample: on a non-empty dataset whose StatusDetail
values are all missing, `value_counts` drops them all, the
status-detail distribution is empty, its percentage values sum to 0,
and the claimed tolerance is 0.1 × 0 = 0 — so the claimed bound fails. -/
theorem percentage_sum_counterexample :
    ¬ (|(((calculate_metrics dsDetailNone).status_detail_percentages).map
          Prod.snd).sum - 100| ≤
        (((calculate_metrics dsDetailNone).status_detail_percentages).length :
          ℚ) / 10) := by
  have h : (calculate_metrics dsDetailNone).status_detail_percentages =
      ([] : List (String × ℚ)) := rfl
  rw [h]
  simp only [List.map_nil, List.sum_nil, List.length_nil, Nat.cast_zero]
  rw [show (0 : ℚ) - 100 = -100 by norm_num, abs_neg,
    abs_of_nonneg (by norm_num : (0 : ℚ) ≤ 100)]
  norm_num

/-! ### Claim C8 about the per-dimension breakdown -/

theorem sum_indicator_nodup (t : String) :
    ∀ ss : List String, ss.Nodup → t ∈ ss →
      (ss.map (fun s => if s = t then (1 : Nat) else 0)).sum = 1
  | [], _, hmem => absurd hmem (List.not_mem_nil t)
  | s0 :: ss, hnd, hmem => by
    rcases hnd with _ | ⟨h0, hnd⟩
    by_cases h : s0 = t
    · subst h
      have hz : (ss.map (fun s => if s = s0 then (1 : Nat) else 0)).sum = 0 := by
        apply List.sum_eq_zero
        intro x hx
        obtain ⟨s, hs, hxs⟩ := List.mem_map.mp hx
        rw [← hxs, if_neg]
        intro he
        exact (h0 s hs) he.symm
      rw [List.map_cons, List.sum_cons, if_pos rfl, hz]
    · have hmem2 : t ∈ ss := by
        rcases List.mem_cons.mp hmem with h1 | h1
        · exact absurd h1.symm h
        · exact h1
      rw [List.map_cons, List.sum_cons, if_neg h,
        sum_indicator_nodup t ss hnd hmem2]

theorem sum_count_pairs (e : String) :
    ∀ (pairs : List (String × String)) (ss : List String), ss.Nodup →
      (∀ p ∈ pairs, p.2 ∈ ss) →
      (ss.map (fun s => pairs.count (e, s))).sum =
        (pairs.filter (fun p => decide (p.1 = e))).length
  | [], ss, _, _ => by simp
  | p :: rest, ss, hnd, hmem => by
    have ih := sum_count_pairs e rest ss hnd
      (fun q hq => hmem q (List.mem_cons_of_mem p hq))
    have hcnt : (ss.map (fun s => (p :: rest).count (e, s))).sum =
        (ss.map (fun s => rest.count (e, s))).sum +
          (ss.map (fun s => if (e, s) = p then (1 : Nat) else 0)).sum := by
      rw [← List.sum_map_add]
      apply congrArg
      apply List.map_congr_left
      intro s _
      rw [List.count_cons]
      by_cases h : (e, s) = p
      · rw [if_pos (beq_iff_eq.mpr h.symm), if_pos h]
      · rw [if_neg (by simpa using fun hh => h hh.symm), if_neg h]
    rw [hcnt, ih]
    rcases p with ⟨pv, pw⟩
    by_cases hpe : pv = e
    · subst hpe
      have hmap : ss.map (fun s => if (pv, s) = (pv, pw) then (1 : Nat) else 0) =
          ss.map (fun s => if s = pw then (1 : Nat) else 0) := by
        apply List.map_congr_left
        intro s _
        by_cases hs : s = pw
        · subst hs
          simp
        · rw [if_neg (by simp [hs]), if_neg hs]
      rw [hmap,
        sum_indicator_nodup pw ss hnd (hmem (pv, pw) (List.mem_cons_self _ _)),
        List.filter_cons, if_pos (by simp)]
      simp [Nat.add_comm]
    · have hz : (ss.map (fun s => if (e, s) = (pv, pw) then (1 : Nat) else 0)).sum
          = 0 := by
        apply List.sum_eq_zero
        intro x hx
        obtain ⟨s, hs, hxs⟩ := List.mem_map.mp hx
        rw [← hxs, if_neg]
        intro he
        injection he with he1 he2
        exact hpe he1.symm
      rw [hz, List.filter_cons, if_neg (by simpa using hpe)]
      omega

theorem dimPairs_filter_length (f : Record → Option String) (e : String) :
    ∀ rows : List Record,
      ((dimPairs f rows).filter (fun p => decide (p.1 = e))).length =
        (rows.filter (fun r => decide (f r = some e) &&
          r.requestStatus.isSome)).length
  | [] => rfl
  | r :: rest => by
    have ih := dimPairs_filter_length f e rest
    unfold dimPairs at ih ⊢
    cases hf : f r with
    | none =>
      cases hs : r.requestStatus with
      | none => simpa [List.filterMap_cons, List.filter_cons, hf, hs] using ih
      | some s => simpa [List.filterMap_cons, List.filter_cons, hf, hs] using ih
    | some v =>
      cases hs : r.requestStatus with
      | none => simpa [List.filterMap_cons, List.filter_cons, hf, hs] using ih
      | some s =>
        by_cases hv : v = e
        · subst hv
          simpa [List.filterMap_cons, List.filter_cons, hf, hs] using ih
        · simpa [List.filterMap_cons, List.filter_cons, hf, hs, hv] using ih

theorem snd_mem_breakdownStatuses (pairs : List (String × String)) :
    ∀ p ∈ pairs, p.2 ∈ breakdownStatuses pairs := by
  intro p hp
  unfold breakdownStatuses
  apply (perm_sortRanked _ _).mem_iff.mpr
  apply mem_uniqueList.mpr
  exact List.mem_map_of_mem Prod.snd hp

theorem nodup_breakdownStatuses (pairs : List (String × String)) :
    (breakdownStatuses pairs).Nodup := by
  unfold breakdownStatuses
  exact ((perm_sortRanked _ _).nodup_iff).mpr (nodup_uniqueList _)

theorem rankGe_total {β : Type} (g : β → Nat) (a b : β) :
    (decide (g b ≤ g a) || decide (g a ≤ g b)) = true := by
  rcases le_total (g b) (g a) with h | h <;> simp [h]

theorem rankGe_trans {β : Type} (g : β → Nat) (a b c : β)
    (h1 : decide (g b ≤ g a) = true) (h2 : decide (g c ≤ g b) = true) :
    decide (g c ≤ g a) = true := by
  simp only [decide_eq_true_eq] at h1 h2 ⊢
  exact le_trans h2 h1

theorem by_dimension_def (d : Dataset) :
    (calculate_metrics d).by_dimension =
      (if d.hasAdvisor then
        [("Advisor Firm Name",
          buildBreakdown (fun r => r.advisorFirmName) d.rows)]
      else []) ++
      (if d.hasRecordkeeper then
        [("Recordkeeper Name",
          buildBreakdown (fun r => r.recordkeeperName) d.rows)]
      else []) ++
      (if d.hasNscc then
        [("NSCC Firm Name", buildBreakdown (fun r => r.nsccFirmName) d.rows)]
      else []) := rfl

theorem by_dimension_lookup (d : Dataset) :
    ((calculate_metrics d).by_dimension.lookup "Advisor Firm Name" =
      if d.hasAdvisor then
        some (buildBreakdown (fun r => r.advisorFirmName) d.rows)
      else none) ∧
    ((calculate_metrics d).by_dimension.lookup "Recordkeeper Name" =
      if d.hasRecordkeeper then
        some (buildBreakdown (fun r => r.recordkeeperName) d.rows)
      else none) ∧
    ((calculate_metrics d).by_dimension.lookup "NSCC Firm Name" =
      if d.hasNscc then
        some (buildBreakdown (fun r => r.nsccFirmName) d.rows)
      else none) := by
  simp only [by_dimension_def]
  cases hA : d.hasAdvisor <;> cases hR : d.hasRecordkeeper <;>
    cases hN : d.hasNscc <;> simp [List.lookup]

theorem buildBreakdown_data (f : Record → Option String) (rows : List Record) :
    (buildBreakdown f rows).data =
      (sortRanked (fun a b =>
        decide (entityTotal (dimPairs f rows)
            (breakdownStatuses (dimPairs f rows)) b ≤
          entityTotal (dimPairs f rows)
            (breakdownStatuses (dimPairs f rows)) a))
        (breakdownEntities (dimPairs f rows))).map (fun e =>
          { entity := e
            counts := (breakdownStatuses (dimPairs f rows)).map
              (fun s => (s, (dimPairs f rows).count (e, s)))
            total := entityTotal (dimPairs f rows)
              (breakdownStatuses (dimPairs f rows)) e }) := rfl

theorem buildBreakdown_statuses (f : Record → Option String)
    (rows : List Record) :
    (buildBreakdown f rows).statuses =
      breakdownStatuses (dimPairs f rows) := rfl

theorem buildBreakdown_props (f : Record → Option String)
    (rows : List Record) :
    (buildBreakdown f rows).data.Pairwise
      (fun r1 r2 => r2.total ≤ r1.total) ∧
    (∀ row ∈ (buildBreakdown f rows).data,
      row.total = (rows.filter (fun r => decide (f r = some row.entity) &&
        r.requestStatus.isSome)).length) ∧
    ((buildBreakdown f rows).data.map (fun row => row.entity)).Perm
      (uniqueList ((dimPairs f rows).map Prod.fst)) ∧
    (∀ row ∈ (buildBreakdown f rows).data,
      row.counts = (buildBreakdown f rows).statuses.map
        (fun s => (s, (dimPairs f rows).count (row.entity, s)))) := by
  refine ⟨?_, ?_, ?_, ?_⟩
  · rw [buildBreakdown_data]
    apply List.pairwise_map.mpr
    have hp := pairwise_sortRanked
      (rankGe_total (entityTotal (dimPairs f rows)
        (breakdownStatuses (dimPairs f rows))))
      (rankGe_trans (entityTotal (dimPairs f rows)
        (breakdownStatuses (dimPairs f rows))))
      (breakdownEntities (dimPairs f rows))
    exact hp.imp (fun h => by simpa using h)
  · intro row hrow
    rw [buildBreakdown_data] at hrow
    obtain ⟨e, he, rfl⟩ := List.mem_map.mp hrow
    show entityTotal (dimPairs f rows) (breakdownStatuses (dimPairs f rows)) e
      = _
    unfold entityTotal
    rw [sum_count_pairs e (dimPairs f rows)
      (breakdownStatuses (dimPairs f rows))
      (nodup_breakdownStatuses (dimPairs f rows))
      (snd_mem_breakdownStatuses (dimPairs f rows)),
      dimPairs_filter_length]
  · rw [buildBreakdown_data, List.map_map]
    have hid : ((fun row : EntityRow => row.entity) ∘ fun e =>
        ({ entity := e
           counts := (breakdownStatuses (dimPairs f rows)).map
             (fun s => (s, (dimPairs f rows).count (e, s)))
           total := entityTotal (dimPairs f rows)
             (breakdownStatuses (dimPairs f rows)) e } : EntityRow)) =
        id := rfl
    rw [hid, List.map_id]
    have h1 := perm_sortRanked (fun a b =>
      decide (entityTotal (dimPairs f rows)
          (breakdownStatuses (dimPairs f rows)) b ≤
        entityTotal (dimPairs f rows)
          (breakdownStatuses (dimPairs f rows)) a))
      (breakdownEntities (dimPairs f rows))
    have h2 : (breakdownEntities (dimPairs f rows)).Perm
        (uniqueList ((dimPairs f rows).map Prod.fst)) := by
      unfold breakdownEntities
      exact perm_sortRanked _ _
    exact h1.trans h2
  · intro row hrow
    rw [buildBreakdown_data] at hrow
    obtain ⟨e, he, rfl⟩ := List.mem_map.mp hrow
    rfl

/-- Claim C8 (amended): for every dataset, each of the three dimensions
is present in `by_dimension` exactly when its column exists (an absent
column is omitted, not an error), each present dimension maps to the
breakdown grouping records by (dimension value, RequestStatus) over
records in which both are present, each entity row carries the
per-status pair counts, its row total equals the number of records with
that dimension value and a present RequestStatus, the entity rows are
sorted descending by row total, and the entities are exactly the
distinct present dimension values.  The snapshot stores counts and
totals only; it contains no percentage fields. -/
theorem by_dimension_spec (d : Dataset) :
    ((calculate_metrics d).by_dimension.lookup "Advisor Firm Name" =
      if d.hasAdvisor then
        some (buildBreakdown (fun r => r.advisorFirmName) d.rows)
      else none) ∧
    ((calculate_metrics d).by_dimension.lookup "Recordkeeper Name" =
      if d.hasRecordkeeper then
        some (buildBreakdown (fun r => r.recordkeeperName) d.rows)
      else none) ∧
    ((calculate_metrics d).by_dimension.lookup "NSCC Firm Name" =
      if d.hasNscc then
        some (buildBreakdown (fun r => r.nsccFirmName) d.rows)
      else none) ∧
    (∀ f : Record → Option String,
      (buildBreakdown f d.rows).data.Pairwise
        (fun r1 r2 => r2.total ≤ r1.total) ∧
      (∀ row ∈ (buildBreakdown f d.rows).data,
        row.total = (d.rows.filter (fun r =>
          decide (f r = some row.entity) && r.requestStatus.isSome)).length) ∧
      ((buildBreakdown f d.rows).data.map (fun row => row.entity)).Perm
        (uniqueList ((dimPairs f d.rows).map Prod.fst)) ∧
      (∀ row ∈ (buildBreakdown f d.rows).data,
        row.counts = (buildBreakdown f d.rows).statuses.map
          (fun s => (s, (dimPairs f d.rows).count (row.entity, s))))) := by
  obtain ⟨h1, h2, h3⟩ := by_dimension_lookup d
  exact ⟨h1, h2, h3, fun f => buildBreakdown_props f d.rows⟩

/-- A dataset with an advisor column, two records for advisor "A", one
of which has no RequestStatus. -/
def dsAdvisor : Dataset where
  rows := [{ baseRow with
              advisorFirmName := some "A"
              requestStatus := some "X" },
           { baseRow with advisorFirmName := some "A" }]
  hasAdvisor := true
  hasRecordkeeper := false
  hasNscc := false

/-- Claim C8, counterexample: advisor "A" appears on two records, but
its breakdown row total is 1 because `groupby` drops the record whose
RequestStatus is missing; and the serialized breakdown row for "A"
holds only the dimension value, the per-status counts and the total —
no entry carries the per-status percentage (here 100.0) the claim says
the snapshot includes. -/
theorem by_dimension_counterexample :
    (calculate_metrics dsAdvisor).by_dimension.lookup "Advisor Firm Name" =
      some (buildBreakdown (fun r => r.advisorFirmName) dsAdvisor.rows) ∧
    (buildBreakdown (fun r => r.advisorFirmName) dsAdvisor.rows).data =
      [{ entity := "A", counts := [("X", 1)], total := 1 }] ∧
    (dsAdvisor.rows.filter (fun r =>
      decide (r.advisorFirmName = some "A"))).length = 2 ∧
    (1 : Nat) ≠ 2 ∧
    (∀ kv ∈ recordEntries "Advisor Firm Name"
        { entity := "A", counts := [("X", 1)], total := 1 },
      kv.2 ≠ Cell.q (round1 ((1 : ℚ) / 1 * 100))) := by
  refine ⟨by decide, by decide, by decide, by decide, ?_⟩
  intro kv hkv
  have hcases : kv = ("Advisor Firm Name", Cell.s "A") ∨
      kv = ("X", Cell.n 1) ∨ kv = ("Total", Cell.n 1) := by
    simpa [recordEntries] using hkv
  rcases hcases with rfl | rfl | rfl <;> intro h <;> cases h

/-- Witness for the amended C8 at a concrete dataset: the absent
recordkeeper column is omitted, the present advisor column is kept, and
the advisor row total counts exactly the records with advisor "A" and a
present status. -/
theorem by_dimension_spec_witness :
    (calculate_metrics dsAdvisor).by_dimension.lookup "Recordkeeper Name" =
      none ∧
    (calculate_metrics dsAdvisor).by_dimension.lookup "Advisor Firm Name" =
      some (buildBreakdown (fun r => r.advisorFirmName) dsAdvisor.rows) ∧
    ({ entity := "A", counts := [("X", 1)], total := 1 } : EntityRow).total =
      (dsAdvisor.rows.filter (fun r =>
        decide (r.advisorFirmName = some "A") &&
          r.requestStatus.isSome)).length := by
  obtain ⟨hA, hR, _, hprops⟩ := by_dimension_spec dsAdvisor
  refine ⟨by rw [hR]; rfl, by rw [hA]; rfl, ?_⟩
  have hmem : ({ entity := "A", counts := [("X", 1)], total := 1 } :
      EntityRow) ∈
      (buildBreakdown (fun r => r.advisorFirmName) dsAdvisor.rows).data := by
    decide
  exact (hprops (fun r => r.advisorFirmName)).2.1 _ hmem

/-! ### Claim C9 about the orchestrator -/

/-- Claim C9: when Transform yields zero rows the run returns the
explicit "no output" value `Except.ok none` — a normal result distinct
from every error — and when Extract, Aggregate or Load raises, the run
propagates exactly that exception value. -/
theorem run_pipeline_control_flow :
    (∀ (parse : String → Option Int) (e : PyError)
        (load : Dataset → Metrics → Except PyError OutputPaths),
      run_etl_pipeline parse (Except.error e) load = Except.error e) ∧
    (∀ (parse : String → Option Int) (extract : Except PyError Dataset)
        (load : Dataset → Metrics → Except PyError OutputPaths)
        (d t : Dataset),
      extract = Except.ok d → transform_data parse d = Except.ok t →
      t.rows = [] → run_etl_pipeline parse extract load = Except.ok none) ∧
    (∀ (E : Except PyError Dataset) (T : Dataset → Except PyError Dataset)
        (A : Dataset → Except PyError Metrics)
        (L : Dataset → Metrics → Except PyError OutputPaths)
        (d t : Dataset) (e : PyError),
      E = Except.ok d → T d = Except.ok t → t.rows ≠ [] →
      A t = Except.error e → runPipeline E T A L = Except.error e) ∧
    (∀ (parse : String → Option Int) (extract : Except PyError Dataset)
        (load : Dataset → Metrics → Except PyError OutputPaths)
        (d t : Dataset) (e : PyError),
      extract = Except.ok d → transform_data parse d = Except.ok t →
      t.rows ≠ [] → load t (calculate_metrics t) = Except.error e →
      run_etl_pipeline parse extract load = Except.error e) := by
  refine ⟨?_, ?_, ?_, ?_⟩
  · intro parse e load
    rfl
  · intro parse extract load d t hE hT ht
    subst hE
    unfold run_etl_pipeline runPipeline
    show (transform_data parse d).bind _ = _
    rw [hT]
    show (if t.rows.length = 0 then _ else _ : Except PyError _) = _
    rw [if_pos (by rw [ht]; rfl)]
    rfl
  · intro E T A L d t e hE hT ht hA
    subst hE
    unfold runPipeline
    show (T d).bind _ = _
    rw [hT]
    show (if t.rows.length = 0 then _ else _ : Except PyError _) = _
    rw [if_neg (by simpa [List.length_eq_zero] using ht)]
    show (A t).bind _ = _
    rw [hA]
    rfl
  · intro parse extract load d t e hE hT ht hL
    subst hE
    unfold run_etl_pipeline runPipeline
    show (transform_data parse d).bind _ = _
    rw [hT]
    show (if t.rows.length = 0 then _ else _ : Except PyError _) = _
    rw [if_neg (by simpa [List.length_eq_zero] using ht)]
    show (load t (calculate_metrics t)).bind _ = _
    rw [hL]
    rfl

/-- A concrete exception, loaders and the transform output of
`dsStrict`, used by the orchestrator witness. -/
def err0 : PyError where
  msg := "boom"

def load0 : Dataset → Metrics → Except PyError OutputPaths :=
  fun _ _ => Except.ok
    { processed_data_path := "a", metrics_path := "b",
      latest_data_path := "c", latest_metrics_path := "d" }

def loadFail : Dataset → Metrics → Except PyError OutputPaths :=
  fun _ _ => Except.error err0

def tStrict : Dataset where
  rows := (dsStrict.rows.filter (fundMatches "American Century")).map
    (normalizeRow parse0 true true true)
  hasAdvisor := true
  hasRecordkeeper := true
  hasNscc := true

/-- Witness for C9: the four control-flow behaviours at concrete
inputs — extract failure propagated, empty transform mapped to the
"no output" value, aggregate failure propagated, load failure
propagated. -/
theorem run_pipeline_control_flow_witness :
    run_etl_pipeline parse0 (Except.error err0) load0 = Except.error err0 ∧
    run_etl_pipeline parse0 (Except.ok dsNoMatch) load0 = Except.ok none ∧
    runPipeline (Except.ok dsStrict) (transform_data parse0)
      (fun _ => Except.error err0) load0 = Except.error err0 ∧
    run_etl_pipeline parse0 (Except.ok dsStrict) loadFail =
      Except.error err0 := by
  refine ⟨?_, ?_, ?_, ?_⟩
  · exact run_pipeline_control_flow.1 parse0 err0 load0
  · exact run_pipeline_control_flow.2.1 parse0 (Except.ok dsNoMatch) load0
      dsNoMatch dsEmpty rfl rfl rfl
  · exact run_pipeline_control_flow.2.2.1 (Except.ok dsStrict)
      (transform_data parse0) (fun _ => Except.error err0) load0 dsStrict
      tStrict err0 rfl rfl (by decide) rfl
  · exact run_pipeline_control_flow.2.2.2 parse0 (Except.ok dsStrict)
      loadFail dsStrict tStrict err0 rfl rfl (by decide) rfl
